import Mathlib

/-!
# Status-page change-detection engine: a shallow embedding

This file embeds the change-detection engine of a status-page monitor
(`OpenAI_status.py`, the CLI variant, and `server.py`, the web variant) and
proves properties of the embedded definitions.

Modelling conventions:
* A JSON object field that the Python code reads with `obj["k"]` (raising
  `KeyError` when absent) or `obj.get("k", default)` is modelled as an
  `Option String`; subscript access is `getKey` (an `Except`), `.get` is
  `Option.getD`.
* Python dictionaries are association lists over `String` keys with
  `lookupMap` / `updMap` (update-in-place keeps the entry's position,
  a new key is appended — Python's insertion-order semantics).
* Python sets of update ids are modelled as the `List String` of those ids
  with membership semantics; the source only ever tests membership,
  emptiness of a difference, and reassigns the whole set.
* The printed notification blocks of the source are reified as the returned
  list of events; the source's returned `changes` boolean is `true` exactly
  when that list is nonempty.
* An exception aborts processing; the `Except` result discards the partially
  mutated state, which no property below depends on.
-/

namespace StatusPage

/-- Python exceptions the engine can raise: `KeyError` from a missing
subscripted field, `ValueError` from timestamp parsing. -/
inductive PyErr where
  | keyError (key : String)
  | valueError
deriving DecidableEq

/-- `obj["k"]`: subscript access, raising `KeyError k` when the field is
absent. -/
def getKey (k : String) : Option String → Except PyErr String
  | some v => Except.ok v
  | none => Except.error (PyErr.keyError k)

/-- Dictionary lookup (`dict.get(k)`). -/
def lookupMap {α : Type} : List (String × α) → String → Option α
  | [], _ => none
  | (k', v) :: rest, k => if k' = k then some v else lookupMap rest k

/-- Dictionary assignment (`dict[k] = v`): replace in place if the key is
present, append otherwise. -/
def updMap {α : Type} : List (String × α) → String → α → List (String × α)
  | [], k, v => [(k, v)]
  | (k', v') :: rest, k, v =>
      if k' = k then (k, v) :: rest else (k', v') :: updMap rest k v

/-- A raw component descriptor from the summary payload: the three fields
`process_summary` subscripts, each possibly absent. -/
structure RComp where
  id : Option String
  name : Option String
  status : Option String
deriving DecidableEq

/-- A raw incident update descriptor (`{id, status, body, created_at}`). -/
structure RUpd where
  id : Option String
  status : Option String
  body : Option String
  created_at : Option String
deriving DecidableEq

/-- A raw incident descriptor. `incident_updates` defaults to `[]` when
absent in the source (`inc.get("incident_updates", [])`), so it is a plain
list here. -/
structure RInc where
  id : Option String
  name : Option String
  impact : Option String
  status : Option String
  updated_at : Option String
  incident_updates : List RUpd
deriving DecidableEq

/-- A well-formed component descriptor: all three fields present. -/
structure Comp where
  id : String
  name : String
  status : String
deriving DecidableEq

/-- Inject a well-formed component into the raw payload type. -/
def Comp.toR (c : Comp) : RComp :=
  RComp.mk (some c.id) (some c.name) (some c.status)

/-- A well-formed update descriptor: all four fields present. -/
structure Upd where
  id : String
  status : String
  body : String
  created_at : String
deriving DecidableEq

/-- Inject a well-formed update into the raw payload type. -/
def Upd.toR (u : Upd) : RUpd :=
  RUpd.mk (some u.id) (some u.status) (some u.body) (some u.created_at)

/-- A well-formed incident descriptor: all scalar fields present. -/
structure Inc where
  id : String
  name : String
  impact : String
  status : String
  updated_at : String
  incident_updates : List Upd
deriving DecidableEq

/-- Inject a well-formed incident into the raw payload type. -/
def Inc.toR (i : Inc) : RInc :=
  RInc.mk (some i.id) (some i.name) (some i.impact) (some i.status)
    (some i.updated_at) (i.incident_updates.map Upd.toR)

/-- The change events the engine emits (the printed notification blocks of
the CLI variant, reified). -/
inductive Event where
  | componentStatusChanged (componentId name oldStatus newStatus : String)
  | incidentOpened (id name impact status firstUpdateBody : String)
  | incidentUpdated (id name newStatus body createdAt : String)
deriving DecidableEq

/-- The per-incident record of `known_incidents` in the CLI variant. -/
structure IncidentRecord where
  updated_at : String
  status : String
  seen_update_ids : List String
deriving DecidableEq

/-- The mutable state of `StatusPageMonitor` that the engine reads and
writes: the three tracking dictionaries and the first-run flag. -/
structure MState where
  known_incidents : List (String × IncidentRecord)
  component_statuses : List (String × String)
  component_names : List (String × String)
  first_run : Bool
deriving DecidableEq

/-- The state of a freshly constructed monitor. -/
def initMState : MState :=
  MState.mk [] [] [] true

/-- `StatusPageMonitor.process_summary`: for each component descriptor,
read `id`/`name`/`status` (raising on absence), record the name, compare
the stored status, emit a change event when a prior status exists and
differs, and store the new status. -/
def process_summary (st : MState) : List RComp → Except PyErr (List Event × MState)
  | [] => Except.ok ([], st)
  | c :: cs => do
      let cid ← getKey "id" c.id
      let name ← getKey "name" c.name
      let status ← getKey "status" c.status
      let names' := updMap st.component_names cid name
      let old := lookupMap st.component_statuses cid
      let evs : List Event :=
        match old with
        | some o =>
            if o ≠ status then [Event.componentStatusChanged cid name o status] else []
        | none => []
      let statuses' := updMap st.component_statuses cid status
      let res ← process_summary
        (MState.mk st.known_incidents statuses' names' st.first_run) cs
      Except.ok (evs ++ res.1, res.2)

/-- The component diffing rule as the specification words it: look up the
prior status by id; no prior record means no event; a differing prior
status yields one event carrying the old status, the new status and the
current descriptor's name; the latest status is always stored. -/
def specComponents (statuses : List (String × String)) : List Comp → List Event
  | [] => []
  | c :: cs =>
      let evs : List Event :=
        match lookupMap statuses c.id with
        | some o =>
            if o ≠ c.status then
              [Event.componentStatusChanged c.id c.name o c.status]
            else []
        | none => []
      evs ++ specComponents (updMap statuses c.id c.status) cs

/-- The statuses dictionary after a sweep of component descriptors. -/
def storeStatuses (statuses : List (String × String)) : List Comp → List (String × String)
  | [] => statuses
  | c :: cs => storeStatuses (updMap statuses c.id c.status) cs

/-- The names dictionary after a sweep of component descriptors. -/
def storeNames (names : List (String × String)) : List Comp → List (String × String)
  | [] => names
  | c :: cs => storeNames (updMap names c.id c.name) cs

/-- Modelled from the spec: `parse_ts` / `fmt_time` call Python's
`datetime.fromisoformat` (standard-library code not part of this
repository) on `ts.replace("Z", "+00:00")` and reformat the result. The
spec describes this as ISO-8601 timestamp parsing. Only the definedness
behaviour the claims depend on is modelled: parsing the empty string — the
default used when `created_at` is absent — raises `ValueError`, while a
nonempty string is treated as a well-formed ISO-8601 timestamp that parses
and formats successfully. -/
def fmt_time (ts : String) : Except PyErr String :=
  if ts = "" then Except.error PyErr.valueError else Except.ok ts

/-- The set comprehension `{u["id"] for u in updates}`: collect every
update's id, raising `KeyError` at the first update lacking one. The
Python set is modelled as the list of ids with membership semantics. -/
def updateIdsOf : List RUpd → Except PyErr (List String)
  | [] => Except.ok []
  | u :: us => do
      let i ← getKey "id" u.id
      let rest ← updateIdsOf us
      Except.ok (i :: rest)

/-- Insert into a list sorted descending by `key`, placing the new element
before the first element whose key is not greater — the stable position
used by Python's `sorted(..., reverse=True)`. -/
def insertDescBy {α : Type} (key : α → String) (x : α) : List α → List α
  | [] => [x]
  | y :: ys => if key x < key y then y :: insertDescBy key x ys else x :: y :: ys

/-- Python's `sorted(l, key=key, reverse=True)`: stable sort, descending in
`key` (string comparison, as in the source's `u.get("created_at", "")`
key function). -/
def sortDescBy {α : Type} (key : α → String) : List α → List α
  | [] => []
  | x :: xs => insertDescBy key x (sortDescBy key xs)

/-- The body of the per-update loop over the sorted new updates of a known
incident: read `status`/`body` with defaults, format `created_at`
(raising `ValueError` when it does not parse), read the incident's `name`
(raising `KeyError` when absent), and emit one `IncidentUpdated` event
per update, in order. The second pair component (the update's id) is not
read here. -/
def emitUpdates (iid : String) (nameOpt : Option String) :
    List (RUpd × String) → Except PyErr (List Event)
  | [] => Except.ok []
  | (u, _) :: rest => do
      let s := u.status.getD "unknown"
      let body := u.body.getD ""
      let _ ← fmt_time (u.created_at.getD "")
      let name ← getKey "name" nameOpt
      let es ← emitUpdates iid nameOpt rest
      Except.ok (Event.incidentUpdated iid name s body (u.created_at.getD "") :: es)

/-- The body of `StatusPageMonitor.process_incidents` for one incident
descriptor, over the `known_incidents` dictionary. Unknown id: create the
record (capturing `updated_at`, `status` and the update-id set), then —
unless suppressed — emit one `IncidentOpened` whose body is the body of the
update at index 0. Known id: take the update ids not yet seen; if none,
no event and no mutation; otherwise emit one `IncidentUpdated` per new
update, sorted descending by `created_at` (string order, as the source's
sort key), then assign the current update-id set, `updated_at` and
`status` into the record. -/
def processInc (known : List (String × IncidentRecord)) (inc : RInc)
    (suppress : Bool) : Except PyErr (List Event × List (String × IncidentRecord)) := do
  let iid ← getKey "id" inc.id
  let updates := inc.incident_updates
  let update_ids ← updateIdsOf updates
  match lookupMap known iid with
  | none =>
      let known' := updMap known iid
        (IncidentRecord.mk (inc.updated_at.getD "") (inc.status.getD "") update_ids)
      if suppress then
        Except.ok ([], known')
      else do
        let impact := inc.impact.getD "none"
        let status := inc.status.getD "unknown"
        let body :=
          match updates with
          | [] => ""
          | u :: _ => u.body.getD ""
        let name ← getKey "name" inc.name
        Except.ok ([Event.incidentOpened iid name impact status body], known')
  | some kr =>
      let new_ids := update_ids.filter (fun i => ¬ i ∈ kr.seen_update_ids)
      if new_ids = [] then
        Except.ok ([], known)
      else do
        let pairs := updates.zip update_ids
        let news := pairs.filter (fun p => p.2 ∈ new_ids)
        let es ← emitUpdates iid inc.name (sortDescBy (fun p => p.1.created_at.getD "") news)
        let known' := updMap known iid
          (IncidentRecord.mk (inc.updated_at.getD "") (inc.status.getD "") update_ids)
        Except.ok (es, known')

/-- The loop of `process_incidents` over the incidents payload, threading
the `known_incidents` dictionary and concatenating each incident's events
in payload order. -/
def processIncList (known : List (String × IncidentRecord)) :
    List RInc → Bool → Except PyErr (List Event × List (String × IncidentRecord))
  | [], _ => Except.ok ([], known)
  | i :: is, sup => do
      let r ← processInc known i sup
      let res ← processIncList r.2 is sup
      Except.ok (r.1 ++ res.1, res.2)

/-- `StatusPageMonitor.process_incidents` on the full payload: only the
`known_incidents` dictionary of the state changes. -/
def process_incidents (st : MState) (data : List RInc) (suppress : Bool) :
    Except PyErr (List Event × MState) := do
  let r ← processIncList st.known_incidents data suppress
  Except.ok (r.1, MState.mk r.2 st.component_statuses st.component_names st.first_run)

/-- The fixed poll intervals of `StatusPageMonitor`. -/
def CALM_INTERVAL : Nat := 60

/-- The poll interval while an incident is active. -/
def ACTIVE_INTERVAL : Nat := 15

/-- `StatusPageMonitor.get_interval`: a configured fixed interval wins
unconditionally; otherwise the active interval exactly when some tracked
incident's stored status is neither `resolved` nor `postmortem`, else the
calm interval. Reads the state, never writes it. -/
def get_interval (interval : Option Nat) (st : MState) : Nat :=
  match interval with
  | some i => i
  | none =>
      if st.known_incidents.any
          (fun p => decide (p.2.status ≠ "resolved" ∧ p.2.status ≠ "postmortem"))
      then ACTIVE_INTERVAL
      else CALM_INTERVAL

/-- The seen-update-id set stored for incident `iid`, empty when the
incident is untracked (projection used to state seen-set properties). -/
def seenOf (st : MState) (iid : String) : List String :=
  match lookupMap st.known_incidents iid with
  | some r => r.seen_update_ids
  | none => []

/-- The log lines the server variant's `poll_loop` pushes for changes,
reified with the data they interpolate (diagnostic lines such as the
first-run "Loaded"/"Tracking" summaries are not change notifications and
are not modelled). -/
inductive SEvent where
  | componentChange (name oldStatus newStatus : String)
  | newIncident (name impact status : String)
  | update (name status body createdAt : String)
deriving DecidableEq

/-- The per-incident record of the server variant's `known_incidents`
(no `updated_at` is tracked there). -/
structure SRecord where
  status : String
  seen : List String
deriving DecidableEq

/-- The module-level mutable state of `server.py` that `poll_loop` reads
and writes. -/
structure SState where
  known_incidents : List (String × SRecord)
  component_statuses : List (String × String)
  first_run : Bool
deriving DecidableEq

/-- The server state at module load. -/
def initSState : SState :=
  SState.mk [] [] true

/-- The summary section of `poll_loop`: on the first run, store every
component's status without diffing; afterwards, diff each descriptor
against the stored status — emitting only when the stored status is
truthy (non-`None` and nonempty) and differs — then store. -/
def server_components (statuses : List (String × String)) (firstRun : Bool) :
    List RComp → Except PyErr (List SEvent × List (String × String))
  | [] => Except.ok ([], statuses)
  | c :: cs => do
      let cid ← getKey "id" c.id
      if firstRun then do
        let status ← getKey "status" c.status
        let res ← server_components (updMap statuses cid status) true cs
        Except.ok (res.1, res.2)
      else do
        let old := lookupMap statuses cid
        let evs : List SEvent ←
          match old with
          | some o =>
              if o ≠ "" then do
                let status ← getKey "status" c.status
                if o ≠ status then do
                  let name ← getKey "name" c.name
                  pure [SEvent.componentChange name o status]
                else pure []
              else pure []
          | none => pure []
        let status ← getKey "status" c.status
        let res ← server_components (updMap statuses cid status) false cs
        Except.ok (evs ++ res.1, res.2)

/-- The per-update loop of the server's known-incident branch: read
`status`/`body` with empty defaults, subscript `created_at` (raising
`KeyError` when absent) and format it, subscript the incident's `name`,
and emit one update line per new update in sorted order. -/
def serverEmit (nameOpt : Option String) :
    List (RUpd × String) → Except PyErr (List SEvent)
  | [] => Except.ok []
  | (u, _) :: rest => do
      let s := u.status.getD ""
      let body := u.body.getD ""
      let created ← getKey "created_at" u.created_at
      let _ ← fmt_time created
      let name ← getKey "name" nameOpt
      let es ← serverEmit nameOpt rest
      Except.ok (SEvent.update name s body created :: es)

/-- The incidents section of `poll_loop` for one incident descriptor.
Unknown id: create the record; unless it is the first run, emit a
new-incident line (whose status defaults to the empty string, and which
carries no body). Known id: emit one line per new update, sorted
descending by `created_at`, then assign the current update-id set and
status into the record. -/
def serverInc (known : List (String × SRecord)) (firstRun : Bool) (inc : RInc) :
    Except PyErr (List SEvent × List (String × SRecord)) := do
  let iid ← getKey "id" inc.id
  let updates := inc.incident_updates
  let update_ids ← updateIdsOf updates
  match lookupMap known iid with
  | none =>
      let known' := updMap known iid (SRecord.mk (inc.status.getD "") update_ids)
      if firstRun then
        Except.ok ([], known')
      else do
        let impact := inc.impact.getD "none"
        let name ← getKey "name" inc.name
        Except.ok ([SEvent.newIncident name impact (inc.status.getD "")], known')
  | some kr =>
      let new_ids := update_ids.filter (fun i => ¬ i ∈ kr.seen)
      if new_ids = [] then
        Except.ok ([], known)
      else do
        let pairs := updates.zip update_ids
        let news := pairs.filter (fun p => p.2 ∈ new_ids)
        let es ← serverEmit inc.name (sortDescBy (fun p => p.1.created_at.getD "") news)
        let known' := updMap known iid (SRecord.mk (inc.status.getD "") update_ids)
        Except.ok (es, known')

/-- The loop of the server's incidents section over the payload. -/
def serverIncList (known : List (String × SRecord)) (firstRun : Bool) :
    List RInc → Except PyErr (List SEvent × List (String × SRecord))
  | [] => Except.ok ([], known)
  | i :: is => do
      let r ← serverInc known firstRun i
      let res ← serverIncList r.2 firstRun is
      Except.ok (r.1 ++ res.1, res.2)

/-- One iteration of `poll_loop` after the two fetches, given the fetched
payloads (`none` models a fetch that returned no usable document: `None`
or a falsy body, which the truthiness guards skip). The first-run flag is
cleared at the end of every iteration. -/
def server_step (st : SState) (summary : Option (List RComp))
    (incidents : Option (List RInc)) : Except PyErr (List SEvent × SState) := do
  let rs ←
    match summary with
    | some comps => server_components st.component_statuses st.first_run comps
    | none => Except.ok ([], st.component_statuses)
  let ri ←
    match incidents with
    | some incs => serverIncList st.known_incidents st.first_run incs
    | none => Except.ok ([], st.known_incidents)
  Except.ok (rs.1 ++ ri.1, SState.mk ri.2 rs.2 false)

/-- One iteration of `StatusPageMonitor.poll` after the two fetches: the
summary is processed first, incidents second with `suppress` equal to the
first-run flag, and the flag is cleared at the end of every poll. -/
def poll_step (st : MState) (summary : Option (List RComp))
    (incidents : Option (List RInc)) : Except PyErr (List Event × MState) := do
  let rs ←
    match summary with
    | some comps => process_summary st comps
    | none => Except.ok ([], st)
  let ri ←
    match incidents with
    | some incs => process_incidents rs.2 incs rs.2.first_run
    | none => Except.ok ([], rs.2)
  Except.ok (rs.1 ++ ri.1,
    MState.mk ri.2.known_incidents ri.2.component_statuses ri.2.component_names false)

/-- Run the CLI variant over a sequence of fetched snapshots, concatenating
each poll's events. -/
def cli_run (st : MState) :
    List (Option (List RComp) × Option (List RInc)) → Except PyErr (List Event × MState)
  | [] => Except.ok ([], st)
  | p :: ps => do
      let r ← poll_step st p.1 p.2
      let res ← cli_run r.2 ps
      Except.ok (r.1 ++ res.1, res.2)

/-- Run the server variant over a sequence of fetched snapshots. -/
def server_run (st : SState) :
    List (Option (List RComp) × Option (List RInc)) → Except PyErr (List SEvent × SState)
  | [] => Except.ok ([], st)
  | p :: ps => do
      let r ← server_step st p.1 p.2
      let res ← server_run r.2 ps
      Except.ok (r.1 ++ res.1, res.2)

/-- A change notification abstracted to the data both variants report:
used to compare the two variants' output. -/
inductive Notif where
  | componentChange (name oldStatus newStatus : String)
  | opened (name impact status : String)
  | updated (name status body createdAt : String)
deriving DecidableEq

/-- Project a CLI event to its notification content. -/
def cliNotif : Event → Notif
  | Event.componentStatusChanged _ n o s => Notif.componentChange n o s
  | Event.incidentOpened _ n i s _ => Notif.opened n i s
  | Event.incidentUpdated _ n s b c => Notif.updated n s b c

/-- Project a server log event to its notification content. -/
def srvNotif : SEvent → Notif
  | SEvent.componentChange n o s => Notif.componentChange n o s
  | SEvent.newIncident n i s => Notif.opened n i s
  | SEvent.update n s b c => Notif.updated n s b c

/-- The body of the update at index 0 of a well-formed update list; the
empty string when the list is empty (`updates[0].get("body", "") if
updates else ""`). -/
def firstBody : List Upd → String
  | [] => ""
  | u :: _ => u.body

/-- The updates of a payload whose ids are not in the given seen set —
the updates the known-incident branch reports. -/
def newUpds (seen : List String) (us : List Upd) : List Upd :=
  us.filter (fun u => decide (u.id ∉ seen))

/-- The record, state and incident payload of the C5 witness: `u1` is
already seen; the payload delivers `u1` plus the new updates `u3`
(created at T) and `u4` (created at T+1), in that upstream order. -/
def c5Record : IncidentRecord :=
  IncidentRecord.mk "" "investigating" ["u1"]

/-- The tracked state of the C5 witness. -/
def c5State : MState :=
  MState.mk [("i1", c5Record)] [] [] false

/-- The incident payload of the C5 witness. -/
def c5Inc : Inc :=
  Inc.mk "i1" "Outage" "minor" "monitoring" "T2"
    [Upd.mk "u1" "investigating" "a" "2024-01-01T00:00:00Z",
     Upd.mk "u3" "identified" "c" "2024-01-02T00:00:00Z",
     Upd.mk "u4" "monitoring" "d" "2024-01-02T00:00:01Z"]

/-- The server variant's component diffing rule, stated like
`specComponents`: an event only when a truthy (nonempty) prior status
exists and differs. -/
def srvSpecComponents (statuses : List (String × String)) : List Comp → List SEvent
  | [] => []
  | c :: cs =>
      let evs : List SEvent :=
        match lookupMap statuses c.id with
        | some o =>
            if o ≠ "" then
              (if o ≠ c.status then [SEvent.componentChange c.name o c.status] else [])
            else []
        | none => []
      evs ++ srvSpecComponents (updMap statuses c.id c.status) cs

/-- Correspondence between a CLI incident record entry and a server record
entry: same incident id, same stored status, same seen set (the CLI
additionally tracks `updated_at`, which the server variant does not). -/
def recAgrees (a : String × IncidentRecord) (b : String × SRecord) : Prop :=
  a.1 = b.1 ∧ a.2.status = b.2.status ∧ a.2.seen_update_ids = b.2.seen

/-- Correspondence between the CLI monitor state and the server state: the
same component statuses, pointwise-agreeing incident records, and the same
first-run flag (the CLI's `component_names` map has no server
counterpart). -/
def statesAgree (m : MState) (s : SState) : Prop :=
  m.component_statuses = s.component_statuses
    ∧ List.Forall₂ recAgrees m.known_incidents s.known_incidents
    ∧ m.first_run = s.first_run

/-- Inject a sequence of well-formed snapshots into the raw payload types
fed to both run functions. -/
def liftP (p : Option (List Comp) × Option (List Inc)) :
    Option (List RComp) × Option (List RInc) :=
  (p.1.map (List.map Comp.toR), p.2.map (List.map Inc.toR))

/-- The snapshot sequence of the C9 witness: a first poll loading one
component and one incident, then a second poll with a component status
change and a new incident update. -/
def c9Polls : List (Option (List Comp) × Option (List Inc)) :=
  [(some [Comp.mk "x" "API" "operational"],
    some [Inc.mk "i1" "Outage" "minor" "investigating" "T1"
      [Upd.mk "u1" "investigating" "b1" "2024-01-01T00:00:00Z"]]),
   (some [Comp.mk "x" "API" "major_outage"],
    some [Inc.mk "i1" "Outage" "minor" "monitoring" "T2"
      [Upd.mk "u1" "investigating" "b1" "2024-01-01T00:00:00Z",
       Upd.mk "u2" "monitoring" "b2" "2024-01-01T01:00:00Z"]])]

theorem process_summary_toR (st : MState) (cs : List Comp) :
    process_summary st (cs.map Comp.toR) =
      Except.ok (specComponents st.component_statuses cs,
        MState.mk st.known_incidents
          (storeStatuses st.component_statuses cs)
          (storeNames st.component_names cs)
          st.first_run) := by
  induction cs generalizing st with
  | nil => cases st; rfl
  | cons c cs ih =>
      simp only [List.map, process_summary, Comp.toR, getKey, bind, Except.bind,
        specComponents, storeStatuses, storeNames]
      rw [ih]

theorem except_bind_ok {ε α β : Type} (a : α) (f : α → Except ε β) :
    (Except.ok a : Except ε α) >>= f = f a := rfl

theorem except_bind_err {ε α β : Type} (e : ε) (f : α → Except ε β) :
    (Except.error e : Except ε α) >>= f = Except.error e := rfl

theorem getKey_some (k v : String) : getKey k (some v) = Except.ok v := rfl

theorem getKey_none (k : String) :
    getKey k none = Except.error (PyErr.keyError k) := rfl

theorem lookup_updMap_self {α : Type} (m : List (String × α)) (k : String) (v : α) :
    lookupMap (updMap m k v) k = some v := by
  induction m with
  | nil => simp [updMap, lookupMap]
  | cons p rest ih =>
      obtain ⟨k', v'⟩ := p
      by_cases h : k' = k
      · simp [updMap, h, lookupMap]
      · simp [updMap, h, lookupMap, ih]

theorem lookup_updMap_ne {α : Type} (m : List (String × α)) {k k' : String} (v : α)
    (h : k' ≠ k) : lookupMap (updMap m k v) k' = lookupMap m k' := by
  induction m with
  | nil => simp [updMap, lookupMap, Ne.symm h]
  | cons p rest ih =>
      obtain ⟨k'', v''⟩ := p
      by_cases hk : k'' = k
      · subst hk
        simp [updMap, lookupMap, Ne.symm h]
      · simp [updMap, hk, lookupMap, ih]

theorem mem_of_lookup {α : Type} {m : List (String × α)} {k : String} {v : α}
    (h : lookupMap m k = some v) : (k, v) ∈ m := by
  induction m with
  | nil => simp [lookupMap] at h
  | cons p rest ih =>
      obtain ⟨k', v'⟩ := p
      by_cases hk : k' = k
      · subst hk
        simp [lookupMap] at h
        simp [h]
      · simp [lookupMap, hk] at h
        exact List.mem_cons_of_mem _ (ih h)

theorem mem_updMap {α : Type} {m : List (String × α)} {k : String} {v : α}
    {kv : String × α} (h : kv ∈ updMap m k v) : kv = (k, v) ∨ kv ∈ m := by
  induction m with
  | nil => simpa [updMap] using h
  | cons p rest ih =>
      obtain ⟨k', v'⟩ := p
      by_cases hk : k' = k
      · subst hk
        simp [updMap] at h
        rcases h with h | h
        · exact Or.inl h
        · exact Or.inr (List.mem_cons_of_mem _ h)
      · simp [updMap, hk] at h
        rcases h with h | h
        · exact Or.inr (by simp [h])
        · rcases ih h with h' | h'
          · exact Or.inl h'
          · exact Or.inr (List.mem_cons_of_mem _ h')

theorem mem_insertDescBy {α : Type} (key : α → String) (a : α) (l : List α) (x : α) :
    x ∈ insertDescBy key a l ↔ x = a ∨ x ∈ l := by
  induction l with
  | nil => simp [insertDescBy]
  | cons y ys ih =>
      by_cases h : key a < key y
      · simp only [insertDescBy, if_pos h, List.mem_cons, ih]
        tauto
      · simp only [insertDescBy, if_neg h, List.mem_cons]

theorem mem_sortDescBy {α : Type} (key : α → String) (l : List α) (x : α) :
    x ∈ sortDescBy key l ↔ x ∈ l := by
  induction l with
  | nil => simp [sortDescBy]
  | cons y ys ih =>
      simp only [sortDescBy, mem_insertDescBy, ih, List.mem_cons]

theorem insertDescBy_map {α β : Type} (key : β → String) (f : α → β) (a : α)
    (l : List α) :
    insertDescBy key (f a) (l.map f) = (insertDescBy (fun x => key (f x)) a l).map f := by
  induction l with
  | nil => rfl
  | cons y ys ih =>
      by_cases h : key (f a) < key (f y)
      · simp only [List.map, insertDescBy, if_pos h, ih]
      · simp only [List.map, insertDescBy, if_neg h]

theorem sortDescBy_map {α β : Type} (key : β → String) (f : α → β) (l : List α) :
    sortDescBy key (l.map f) = (sortDescBy (fun x => key (f x)) l).map f := by
  induction l with
  | nil => rfl
  | cons y ys ih =>
      simp only [List.map, sortDescBy, ih, insertDescBy_map]

theorem pairwise_insertDescBy {α : Type} (key : α → String) (a : α) (l : List α)
    (h : l.Pairwise (fun x y => key y ≤ key x)) :
    (insertDescBy key a l).Pairwise (fun x y => key y ≤ key x) := by
  induction l with
  | nil => simp [insertDescBy]
  | cons y ys ih =>
      rcases List.pairwise_cons.mp h with ⟨hy, hys⟩
      by_cases hlt : key a < key y
      · simp only [insertDescBy, if_pos hlt]
        refine List.pairwise_cons.mpr ⟨?_, ih hys⟩
        intro z hz
        rcases (mem_insertDescBy key a ys z).mp hz with rfl | hzys
        · exact le_of_lt hlt
        · exact hy z hzys
      · simp only [insertDescBy, if_neg hlt]
        refine List.pairwise_cons.mpr ⟨?_, h⟩
        intro z hz
        have hya : key y ≤ key a := not_lt.mp hlt
        rcases List.mem_cons.mp hz with rfl | hzys
        · exact hya
        · exact le_trans (hy z hzys) hya

theorem pairwise_sortDescBy {α : Type} (key : α → String) (l : List α) :
    (sortDescBy key l).Pairwise (fun x y => key y ≤ key x) := by
  induction l with
  | nil => simp [sortDescBy]
  | cons x xs ih => exact pairwise_insertDescBy key x _ ih

theorem updateIdsOf_toR (us : List Upd) :
    updateIdsOf (us.map Upd.toR) = Except.ok (us.map Upd.id) := by
  induction us with
  | nil => rfl
  | cons u us ih =>
      simp only [List.map, updateIdsOf, Upd.toR, getKey]
      rw [ih]
      rfl

theorem emitUpdates_toR (iid nm : String) (l : List Upd)
    (h : ∀ u ∈ l, u.created_at ≠ "") :
    emitUpdates iid (some nm) (l.map (fun u => (Upd.toR u, u.id))) =
      Except.ok (l.map (fun u =>
        Event.incidentUpdated iid nm u.status u.body u.created_at)) := by
  induction l with
  | nil => rfl
  | cons u us ih =>
      have hu : u.created_at ≠ "" := h u (List.mem_cons_self u us)
      have h' := ih (fun x hx => h x (List.mem_cons_of_mem u hx))
      simp only [List.map, Upd.toR] at h' ⊢
      simp only [emitUpdates, fmt_time, Option.getD_some, if_neg hu,
        getKey_some, except_bind_ok]
      rw [h']
      rfl

theorem processInc_toR_unknown (known : List (String × IncidentRecord)) (inc : Inc)
    (sup : Bool) (h : lookupMap known inc.id = none) :
    processInc known (Inc.toR inc) sup =
      Except.ok
        ((if sup then []
          else [Event.incidentOpened inc.id inc.name inc.impact inc.status
                  (firstBody inc.incident_updates)]),
         updMap known inc.id
           (IncidentRecord.mk inc.updated_at inc.status
             (inc.incident_updates.map Upd.id))) := by
  have hbody :
      (match inc.incident_updates.map Upd.toR with
        | [] => ""
        | u :: _ => u.body.getD "") = firstBody inc.incident_updates := by
    cases inc.incident_updates with
    | nil => rfl
    | cons u us => rfl
  cases sup with
  | true =>
      simp only [processInc, Inc.toR, getKey_some, except_bind_ok, updateIdsOf_toR,
        h, Option.getD_some, if_true]
  | false =>
      simp only [processInc, Inc.toR, getKey_some, except_bind_ok, updateIdsOf_toR,
        h, Option.getD_some, hbody]
      simp

theorem processInc_toR_known (known : List (String × IncidentRecord)) (inc : Inc)
    (sup : Bool) (r : IncidentRecord)
    (h : lookupMap known inc.id = some r)
    (hca : ∀ u ∈ newUpds r.seen_update_ids inc.incident_updates, u.created_at ≠ "") :
    processInc known (Inc.toR inc) sup =
      Except.ok
        ((sortDescBy (fun u => u.created_at) (newUpds r.seen_update_ids inc.incident_updates)).map
            (fun u => Event.incidentUpdated inc.id inc.name u.status u.body u.created_at),
         if newUpds r.seen_update_ids inc.incident_updates = [] then known
         else updMap known inc.id
            (IncidentRecord.mk inc.updated_at inc.status
              (inc.incident_updates.map Upd.id))) := by
  simp only [processInc, Inc.toR, getKey_some, except_bind_ok, updateIdsOf_toR, h]
  have hfilter :
      List.filter (fun i => decide (¬ i ∈ r.seen_update_ids))
          (List.map Upd.id inc.incident_updates)
        = List.map Upd.id (newUpds r.seen_update_ids inc.incident_updates) :=
    List.filter_map Upd.id inc.incident_updates
  rw [hfilter]
  by_cases hnu : newUpds r.seen_update_ids inc.incident_updates = []
  · rw [hnu]
    simp [sortDescBy, hnu]
  · have hne : List.map Upd.id (newUpds r.seen_update_ids inc.incident_updates) ≠ [] := by
      simpa using hnu
    rw [if_neg hne, if_neg hnu]
    have hzip :
        (inc.incident_updates.map Upd.toR).zip (inc.incident_updates.map Upd.id)
          = inc.incident_updates.map (fun u => (Upd.toR u, u.id)) :=
      List.zip_map' Upd.toR Upd.id inc.incident_updates
    rw [hzip]
    have hnews :
        List.filter (fun p => decide (p.2 ∈ List.map Upd.id (newUpds r.seen_update_ids inc.incident_updates)))
            (inc.incident_updates.map (fun u => (Upd.toR u, u.id)))
          = (newUpds r.seen_update_ids inc.incident_updates).map (fun u => (Upd.toR u, u.id)) := by
      rw [List.filter_map]
      have hpt : List.filter
            ((fun p : RUpd × String =>
                decide (p.2 ∈ List.map Upd.id (newUpds r.seen_update_ids inc.incident_updates)))
              ∘ (fun u => (Upd.toR u, u.id))) inc.incident_updates
          = newUpds r.seen_update_ids inc.incident_updates := by
        refine List.filter_congr ?_
        intro u hu
        simp only [Function.comp_apply, decide_eq_decide]
        constructor
        · intro hmem
          rcases List.mem_map.mp hmem with ⟨v, hv, hvid⟩
          have hvnew := List.mem_filter.mp hv
          have : v.id ∉ r.seen_update_ids := by
            simpa using hvnew.2
          rw [← hvid]
          exact this
        · intro hnot
          refine List.mem_map.mpr ⟨u, ?_, rfl⟩
          refine List.mem_filter.mpr ⟨hu, ?_⟩
          simpa using hnot
      rw [hpt]
    rw [hnews]
    have hsort :
        sortDescBy (fun p => p.1.created_at.getD "")
            ((newUpds r.seen_update_ids inc.incident_updates).map (fun u => (Upd.toR u, u.id)))
          = (sortDescBy (fun u => u.created_at) (newUpds r.seen_update_ids inc.incident_updates)).map
              (fun u => (Upd.toR u, u.id)) :=
      sortDescBy_map _ _ _
    rw [hsort]
    have hemit := emitUpdates_toR inc.id inc.name
      (sortDescBy (fun u => u.created_at) (newUpds r.seen_update_ids inc.incident_updates))
      (fun u hu => hca u ((mem_sortDescBy _ _ u).mp hu))
    rw [hemit]
    rfl

theorem except_bind_exists {ε α β : Type} (x : Except ε α) (f : α → Except ε β)
    (hx : ∃ v, x = Except.ok v) (hf : ∀ v, x = Except.ok v → ∃ w, f v = Except.ok w) :
    ∃ w, (x >>= f) = Except.ok w := by
  obtain ⟨v, hv⟩ := hx
  obtain ⟨w, hw⟩ := hf v hv
  exact ⟨w, by rw [hv]; exact hw⟩

theorem updateIdsOf_ok (us : List RUpd) (h : ∀ u ∈ us, u.id.isSome) :
    ∃ ids, updateIdsOf us = Except.ok ids := by
  induction us with
  | nil => exact ⟨[], rfl⟩
  | cons u us ih =>
      obtain ⟨i, hi⟩ := Option.isSome_iff_exists.mp (h u (List.mem_cons_self u us))
      obtain ⟨ids, hids⟩ := ih (fun x hx => h x (List.mem_cons_of_mem u hx))
      refine ⟨i :: ids, ?_⟩
      simp only [updateIdsOf, hi, getKey_some, except_bind_ok]
      rw [hids]
      rfl

theorem emitUpdates_ok (iid nm : String) (l : List (RUpd × String))
    (h : ∀ p ∈ l, p.1.created_at.getD "" ≠ "") :
    ∃ es, emitUpdates iid (some nm) l = Except.ok es := by
  induction l with
  | nil => exact ⟨[], rfl⟩
  | cons p rest ih =>
      obtain ⟨u, uid⟩ := p
      obtain ⟨es, hes⟩ := ih (fun x hx => h x (List.mem_cons_of_mem _ hx))
      have hu : u.created_at.getD "" ≠ "" := h (u, uid) (List.mem_cons_self _ _)
      simp only [emitUpdates, fmt_time, if_neg hu, getKey_some, except_bind_ok]
      apply except_bind_exists
      · exact ⟨es, hes⟩
      intro es' _
      exact ⟨_, rfl⟩

theorem processInc_ok (known : List (String × IncidentRecord)) (inc : RInc) (sup : Bool)
    (hid : inc.id.isSome) (hname : inc.name.isSome)
    (hupd : ∀ u ∈ inc.incident_updates, u.id.isSome ∧ u.created_at.getD "" ≠ "") :
    ∃ res, processInc known inc sup = Except.ok res := by
  obtain ⟨iid, hiid⟩ := Option.isSome_iff_exists.mp hid
  obtain ⟨nm, hnm⟩ := Option.isSome_iff_exists.mp hname
  simp only [processInc]
  apply except_bind_exists
  · exact ⟨iid, by rw [hiid]; rfl⟩
  intro iid' _
  apply except_bind_exists
  · exact updateIdsOf_ok inc.incident_updates (fun u hu => (hupd u hu).1)
  intro ids _
  cases hl : lookupMap known iid' with
  | none =>
      simp only [hl]
      cases sup with
      | true => exact ⟨_, rfl⟩
      | false =>
          apply except_bind_exists
          · exact ⟨nm, by rw [hnm]; rfl⟩
          intro nm' _
          exact ⟨_, rfl⟩
  | some kr =>
      simp only [hl]
      split
      · exact ⟨_, rfl⟩
      · rw [hnm]
        apply except_bind_exists
        · apply emitUpdates_ok
          intro p hp
          have hp1 := (mem_sortDescBy _ _ p).mp hp
          have hp2 := (List.mem_filter.mp hp1).1
          obtain ⟨u, uid⟩ := p
          have hp3 := (List.of_mem_zip hp2).1
          exact (hupd u hp3).2
        intro es _
        exact ⟨_, rfl⟩

theorem process_summary_ok (st : MState) (cs : List RComp)
    (h : ∀ c ∈ cs, c.id.isSome ∧ c.name.isSome ∧ c.status.isSome) :
    ∃ res, process_summary st cs = Except.ok res := by
  induction cs generalizing st with
  | nil => exact ⟨_, rfl⟩
  | cons c cs ih =>
      obtain ⟨hid, hname, hstatus⟩ := h c (List.mem_cons_self c cs)
      obtain ⟨cid, hcid⟩ := Option.isSome_iff_exists.mp hid
      obtain ⟨nm, hnm⟩ := Option.isSome_iff_exists.mp hname
      obtain ⟨stt, hstt⟩ := Option.isSome_iff_exists.mp hstatus
      obtain ⟨res, hres⟩ := ih
        (MState.mk st.known_incidents (updMap st.component_statuses cid stt)
          (updMap st.component_names cid nm) st.first_run)
        (fun x hx => h x (List.mem_cons_of_mem c hx))
      simp only [process_summary, hcid, hnm, hstt, getKey_some, except_bind_ok]
      apply except_bind_exists
      · exact ⟨res, hres⟩
      intro res' _
      exact ⟨_, rfl⟩

theorem processIncList_ok (known : List (String × IncidentRecord)) (incs : List RInc)
    (sup : Bool)
    (h : ∀ i ∈ incs, i.id.isSome ∧ i.name.isSome ∧
        ∀ u ∈ i.incident_updates, u.id.isSome ∧ u.created_at.getD "" ≠ "") :
    ∃ res, processIncList known incs sup = Except.ok res := by
  induction incs generalizing known with
  | nil => exact ⟨_, rfl⟩
  | cons i is ih =>
      obtain ⟨hid, hname, hupd⟩ := h i (List.mem_cons_self i is)
      obtain ⟨r, hr⟩ := processInc_ok known i sup hid hname hupd
      obtain ⟨res, hres⟩ := ih r.2 (fun x hx => h x (List.mem_cons_of_mem i hx))
      simp only [processIncList]
      apply except_bind_exists
      · exact ⟨r, hr⟩
      intro r' hr'
      rw [hr] at hr'
      injection hr' with hh
      subst hh
      apply except_bind_exists
      · exact ⟨res, hres⟩
      intro res' _
      exact ⟨_, rfl⟩

theorem process_incidents_ok (st : MState) (incs : List RInc) (sup : Bool)
    (h : ∀ i ∈ incs, i.id.isSome ∧ i.name.isSome ∧
        ∀ u ∈ i.incident_updates, u.id.isSome ∧ u.created_at.getD "" ≠ "") :
    ∃ res, process_incidents st incs sup = Except.ok res := by
  obtain ⟨res, hres⟩ := processIncList_ok st.known_incidents incs sup h
  simp only [process_incidents]
  apply except_bind_exists
  · exact ⟨res, hres⟩
  intro r _
  exact ⟨_, rfl⟩

theorem perm_insertDescBy {α : Type} (key : α → String) (a : α) (l : List α) :
    List.Perm (insertDescBy key a l) (a :: l) := by
  induction l with
  | nil => exact List.Perm.refl _
  | cons y ys ih =>
      by_cases h : key a < key y
      · simp only [insertDescBy, if_pos h]
        exact (ih.cons y).trans (List.Perm.swap a y ys)
      · simp only [insertDescBy, if_neg h]
        exact List.Perm.refl _

theorem perm_sortDescBy {α : Type} (key : α → String) (l : List α) :
    List.Perm (sortDescBy key l) l := by
  induction l with
  | nil => exact List.Perm.refl _
  | cons x xs ih =>
      exact (perm_insertDescBy key x (sortDescBy key xs)).trans (ih.cons x)

theorem process_incidents_single (st : MState) (i : RInc) (sup : Bool)
    (es : List Event) (kn : List (String × IncidentRecord))
    (h : processInc st.known_incidents i sup = Except.ok (es, kn)) :
    process_incidents st [i] sup =
      Except.ok (es, MState.mk kn st.component_statuses st.component_names st.first_run) := by
  simp only [process_incidents, processIncList, h, except_bind_ok]
  simp

/-- Claim C1, counterexample: the claim says processing never raises on a
descriptor with a missing field, yet a component descriptor that carries
`id` and `name` but no `status` makes `process_summary` raise
`KeyError("status")` — the source subscripts `comp["status"]` directly. -/
theorem missing_component_status_raises :
    process_summary initMState [RComp.mk (some "x") (some "API") none] =
      Except.error (PyErr.keyError "status") := rfl

/-- Claim C1, amended: processing never raises and fills defaults for the
optional fields (`impact`, incident `status`, `updated_at`, update
`status`, `body`) — provided the subscripted fields are present (component
`id`/`name`/`status`, incident `id`/`name`, update `id`) and every
update has a nonempty `created_at` (a new update with a missing
`created_at` would raise `ValueError` in timestamp formatting). -/
theorem required_fields_suffice (st : MState) (cs : List RComp) (incs : List RInc)
    (sup : Bool)
    (hc : ∀ c ∈ cs, c.id.isSome ∧ c.name.isSome ∧ c.status.isSome)
    (hi : ∀ i ∈ incs, i.id.isSome ∧ i.name.isSome ∧
        ∀ u ∈ i.incident_updates, u.id.isSome ∧ u.created_at.getD "" ≠ "") :
    (∃ r, process_summary st cs = Except.ok r) ∧
      (∃ r, process_incidents st incs sup = Except.ok r) :=
  ⟨process_summary_ok st cs hc, process_incidents_ok st incs sup hi⟩

/-- Claim C1, witness: a summary payload with all required fields and an
incident whose `impact`, `status`, `updated_at` and update `status`/`body`
are all absent processes without raising. -/
theorem required_fields_suffice_witness :
    (∃ r, process_summary initMState [RComp.mk (some "c1") (some "API") (some "operational")]
        = Except.ok r) ∧
      (∃ r, process_incidents initMState
          [RInc.mk (some "i1") (some "Outage") none none none
            [RUpd.mk (some "u1") none none (some "2024-01-01T00:00:00Z")]] false
        = Except.ok r) :=
  required_fields_suffice initMState
    [RComp.mk (some "c1") (some "API") (some "operational")]
    [RInc.mk (some "i1") (some "Outage") none none none
      [RUpd.mk (some "u1") none none (some "2024-01-01T00:00:00Z")]]
    false (by decide) (by decide)

/-- Claim C2, counterexample: the claim says the stored seen set becomes
the union of the old seen set and the delivered ids and never loses an id.
With `u1` seen and a payload delivering only the new update `u2`, the
processed record's seen set is exactly `[u2]`: `u1` has been removed, so
the stored set is an assignment of the current ids, not a union. -/
theorem seen_ids_dropped :
    "u1" ∈ seenOf (MState.mk [("i1", IncidentRecord.mk "" "investigating" ["u1"])] [] [] false) "i1"
    ∧ process_incidents
        (MState.mk [("i1", IncidentRecord.mk "" "investigating" ["u1"])] [] [] false)
        [Inc.toR (Inc.mk "i1" "Outage" "minor" "investigating" "T2"
          [Upd.mk "u2" "monitoring" "msg" "2024-01-02T00:00:00Z"])] false
      = Except.ok
          ([Event.incidentUpdated "i1" "Outage" "monitoring" "msg" "2024-01-02T00:00:00Z"],
           MState.mk [("i1", IncidentRecord.mk "T2" "investigating" ["u2"])] [] [] false)
    ∧ "u1" ∉ seenOf (MState.mk [("i1", IncidentRecord.mk "T2" "investigating" ["u2"])] [] [] false) "i1" := by
  refine ⟨by decide, by rfl, by decide⟩

/-- Claim C2, amended: when a known incident's payload carries at least one
unseen update id, the stored seen set is overwritten with exactly the ids
delivered in the current payload — it equals the union only when the
current payload still contains every previously seen id; an id seen
earlier but absent from the current payload is dropped. (With no unseen
ids, nothing is written; the set only grows across polls whose update
lists only ever gain updates.) -/
theorem seen_ids_replaced_by_current (st : MState) (inc : Inc) (sup : Bool)
    (r : IncidentRecord)
    (h : lookupMap st.known_incidents inc.id = some r)
    (hnew : newUpds r.seen_update_ids inc.incident_updates ≠ [])
    (hca : ∀ u ∈ newUpds r.seen_update_ids inc.incident_updates, u.created_at ≠ "") :
    ∃ es, process_incidents st [Inc.toR inc] sup =
        Except.ok (es,
          MState.mk
            (updMap st.known_incidents inc.id
              (IncidentRecord.mk inc.updated_at inc.status (inc.incident_updates.map Upd.id)))
            st.component_statuses st.component_names st.first_run)
      ∧ seenOf
          (MState.mk
            (updMap st.known_incidents inc.id
              (IncidentRecord.mk inc.updated_at inc.status (inc.incident_updates.map Upd.id)))
            st.component_statuses st.component_names st.first_run) inc.id
        = inc.incident_updates.map Upd.id := by
  have h1 := processInc_toR_known st.known_incidents inc sup r h hca
  rw [if_neg hnew] at h1
  refine ⟨_, process_incidents_single st _ sup _ _ h1, ?_⟩
  simp only [seenOf, lookup_updMap_self]

/-- Claim C2, witness: a concrete known incident whose payload drops `u1`
and delivers `u2`. -/
theorem seen_ids_replaced_by_current_witness :
    ∃ es, process_incidents
        (MState.mk [("i1", IncidentRecord.mk "" "investigating" ["u1"])] [] [] false)
        [Inc.toR (Inc.mk "i1" "Outage" "minor" "investigating" "T2"
          [Upd.mk "u2" "monitoring" "msg" "2024-01-02T00:00:00Z"])] false =
        Except.ok (es,
          MState.mk
            (updMap [("i1", IncidentRecord.mk "" "investigating" ["u1"])] "i1"
              (IncidentRecord.mk "T2" "investigating" ["u2"]))
            [] [] false)
      ∧ seenOf
          (MState.mk
            (updMap [("i1", IncidentRecord.mk "" "investigating" ["u1"])] "i1"
              (IncidentRecord.mk "T2" "investigating" ["u2"]))
            [] [] false) "i1"
        = ["u2"] :=
  seen_ids_replaced_by_current
    (MState.mk [("i1", IncidentRecord.mk "" "investigating" ["u1"])] [] [] false)
    (Inc.mk "i1" "Outage" "minor" "investigating" "T2"
      [Upd.mk "u2" "monitoring" "msg" "2024-01-02T00:00:00Z"])
    false (IncidentRecord.mk "" "investigating" ["u1"]) (by decide) (by decide) (by decide)

/-- Claim C3: `process_summary` is exactly the specification's diffing
rule — an event if and only if a prior record exists for the id and its
recorded status differs, no event on first observation or unchanged
status, one event per changed component carrying old status, new status
and the current descriptor's name, in input iteration order — and it
always stores the latest name and status. -/
theorem process_summary_matches_spec (st : MState) (cs : List Comp) :
    process_summary st (cs.map Comp.toR) =
      Except.ok (specComponents st.component_statuses cs,
        MState.mk st.known_incidents
          (storeStatuses st.component_statuses cs)
          (storeNames st.component_names cs)
          st.first_run) :=
  process_summary_toR st cs

/-- Claim C4: a first-seen incident with suppression off yields exactly one
`IncidentOpened` event whose body is the body of the element at index 0 of
the delivered update list (empty when the list is empty), and the record
is created capturing the full update-id set. -/
theorem incident_opened_uses_first_update_body (st : MState) (inc : Inc)
    (h : lookupMap st.known_incidents inc.id = none) :
    process_incidents st [Inc.toR inc] false =
      Except.ok
        ([Event.incidentOpened inc.id inc.name inc.impact inc.status
            (firstBody inc.incident_updates)],
         MState.mk
           (updMap st.known_incidents inc.id
             (IncidentRecord.mk inc.updated_at inc.status (inc.incident_updates.map Upd.id)))
           st.component_statuses st.component_names st.first_run) := by
  have h1 : processInc st.known_incidents (Inc.toR inc) false =
      Except.ok
        ([Event.incidentOpened inc.id inc.name inc.impact inc.status
            (firstBody inc.incident_updates)],
         updMap st.known_incidents inc.id
           (IncidentRecord.mk inc.updated_at inc.status (inc.incident_updates.map Upd.id))) :=
    processInc_toR_unknown st.known_incidents inc false h
  exact process_incidents_single st _ false _ _ h1

/-- Claim C4, witness: a fresh incident with two updates opens with the
body of the upstream-first update (`first body`), not the chronologically
later one. -/
theorem incident_opened_uses_first_update_body_witness :
    process_incidents initMState
      [Inc.toR (Inc.mk "i1" "Outage" "minor" "investigating" "T1"
        [Upd.mk "u1" "investigating" "first body" "2024-01-01T05:00:00Z",
         Upd.mk "u2" "identified" "second body" "2024-01-01T01:00:00Z"])] false =
      Except.ok
        ([Event.incidentOpened "i1" "Outage" "minor" "investigating" "first body"],
         MState.mk
           (updMap [] "i1" (IncidentRecord.mk "T1" "investigating" ["u1", "u2"]))
           [] [] true) :=
  incident_opened_uses_first_update_body initMState
    (Inc.mk "i1" "Outage" "minor" "investigating" "T1"
      [Upd.mk "u1" "investigating" "first body" "2024-01-01T05:00:00Z",
       Upd.mk "u2" "identified" "second body" "2024-01-01T01:00:00Z"])
    (by decide)

/-- Claim C5: for a known incident, the emitted events are exactly one
`IncidentUpdated` per new update (the events list is the image of a
permutation of the new updates), ordered descending by `created_at`
(string order of the timestamps, which for the payload's uniform ISO-8601
format is timestamp order — so an update created at T+1 precedes one
created at T). -/
theorem incident_updates_sorted_desc (st : MState) (inc : Inc) (sup : Bool)
    (r : IncidentRecord)
    (h : lookupMap st.known_incidents inc.id = some r)
    (hca : ∀ u ∈ newUpds r.seen_update_ids inc.incident_updates, u.created_at ≠ "") :
    ∃ st', process_incidents st [Inc.toR inc] sup =
        Except.ok
          ((sortDescBy (fun u => u.created_at) (newUpds r.seen_update_ids inc.incident_updates)).map
            (fun u => Event.incidentUpdated inc.id inc.name u.status u.body u.created_at),
           st')
      ∧ List.Perm (sortDescBy (fun u => u.created_at) (newUpds r.seen_update_ids inc.incident_updates))
          (newUpds r.seen_update_ids inc.incident_updates)
      ∧ List.Pairwise (fun u v => v.created_at ≤ u.created_at)
          (sortDescBy (fun u => u.created_at) (newUpds r.seen_update_ids inc.incident_updates)) := by
  have h1 := processInc_toR_known st.known_incidents inc sup r h hca
  by_cases hnu : newUpds r.seen_update_ids inc.incident_updates = []
  · rw [if_pos hnu] at h1
    exact ⟨_, process_incidents_single st _ sup _ _ h1,
      perm_sortDescBy _ _, pairwise_sortDescBy _ _⟩
  · rw [if_neg hnu] at h1
    exact ⟨_, process_incidents_single st _ sup _ _ h1,
      perm_sortDescBy _ _, pairwise_sortDescBy _ _⟩

/-- Claim C5, witness: with `u1` seen and new updates `u3` (created at T)
delivered before `u4` (created at T+1), exactly the two new updates are
reported and the event for `u4` precedes the event for `u3`. -/
theorem incident_updates_sorted_desc_witness :
    (∃ st', process_incidents c5State [Inc.toR c5Inc] false =
        Except.ok
          ((sortDescBy (fun u => u.created_at) (newUpds c5Record.seen_update_ids c5Inc.incident_updates)).map
            (fun u => Event.incidentUpdated c5Inc.id c5Inc.name u.status u.body u.created_at),
           st')
      ∧ List.Perm (sortDescBy (fun u => u.created_at) (newUpds c5Record.seen_update_ids c5Inc.incident_updates))
          (newUpds c5Record.seen_update_ids c5Inc.incident_updates)
      ∧ List.Pairwise (fun u v => v.created_at ≤ u.created_at)
          (sortDescBy (fun u => u.created_at) (newUpds c5Record.seen_update_ids c5Inc.incident_updates)))
    ∧ (sortDescBy (fun u => u.created_at) (newUpds c5Record.seen_update_ids c5Inc.incident_updates)).map
        (fun u => Event.incidentUpdated c5Inc.id c5Inc.name u.status u.body u.created_at)
      = [Event.incidentUpdated "i1" "Outage" "monitoring" "d" "2024-01-02T00:00:01Z",
         Event.incidentUpdated "i1" "Outage" "identified" "c" "2024-01-02T00:00:00Z"] :=
  ⟨incident_updates_sorted_desc c5State c5Inc false c5Record (by decide) (by decide),
   by
    have hlt : ("2024-01-02T00:00:00Z" : String) < "2024-01-02T00:00:01Z" := by
      rw [String.lt_iff_toList_lt]
      decide
    rw [show newUpds c5Record.seen_update_ids c5Inc.incident_updates =
        [Upd.mk "u3" "identified" "c" "2024-01-02T00:00:00Z",
         Upd.mk "u4" "monitoring" "d" "2024-01-02T00:00:01Z"] from rfl]
    simp only [sortDescBy, insertDescBy, if_pos hlt]
    rfl⟩

/-- Claim C6: a first-seen incident with suppression on emits no event but
still creates the record, whose seen set contains every delivered update
id. -/
theorem suppressed_first_observation_records_all (st : MState) (inc : Inc)
    (h : lookupMap st.known_incidents inc.id = none) :
    process_incidents st [Inc.toR inc] true =
      Except.ok ([],
        MState.mk
          (updMap st.known_incidents inc.id
            (IncidentRecord.mk inc.updated_at inc.status (inc.incident_updates.map Upd.id)))
          st.component_statuses st.component_names st.first_run)
    ∧ ∀ u ∈ inc.incident_updates,
        u.id ∈ seenOf
          (MState.mk
            (updMap st.known_incidents inc.id
              (IncidentRecord.mk inc.updated_at inc.status (inc.incident_updates.map Upd.id)))
            st.component_statuses st.component_names st.first_run) inc.id := by
  have h1 : processInc st.known_incidents (Inc.toR inc) true =
      Except.ok ([],
        updMap st.known_incidents inc.id
          (IncidentRecord.mk inc.updated_at inc.status (inc.incident_updates.map Upd.id))) :=
    processInc_toR_unknown st.known_incidents inc true h
  refine ⟨process_incidents_single st _ true _ _ h1, ?_⟩
  intro u hu
  simp only [seenOf, lookup_updMap_self]
  exact List.mem_map_of_mem Upd.id hu

/-- Claim C6, witness: a fresh incident with two updates, processed with
suppression, yields no events and records both update ids as seen. -/
theorem suppressed_first_observation_records_all_witness :
    process_incidents initMState
      [Inc.toR (Inc.mk "i1" "Outage" "major" "investigating" "T1"
        [Upd.mk "u1" "investigating" "b1" "2024-01-01T00:00:00Z",
         Upd.mk "u2" "identified" "b2" "2024-01-01T01:00:00Z"])] true =
      Except.ok ([],
        MState.mk (updMap [] "i1" (IncidentRecord.mk "T1" "investigating" ["u1", "u2"]))
          [] [] true)
    ∧ ∀ u ∈ [Upd.mk "u1" "investigating" "b1" "2024-01-01T00:00:00Z",
             Upd.mk "u2" "identified" "b2" "2024-01-01T01:00:00Z"],
        u.id ∈ seenOf
          (MState.mk (updMap [] "i1" (IncidentRecord.mk "T1" "investigating" ["u1", "u2"]))
            [] [] true) "i1" :=
  suppressed_first_observation_records_all initMState
    (Inc.mk "i1" "Outage" "major" "investigating" "T1"
      [Upd.mk "u1" "investigating" "b1" "2024-01-01T00:00:00Z",
       Upd.mk "u2" "identified" "b2" "2024-01-01T01:00:00Z"])
    (by decide)

/-- Claim C7: `get_interval` returns a configured fixed interval
unconditionally; with no override it returns the active interval (15) if
and only if some tracked incident's stored status is neither `resolved`
nor `postmortem` and the calm interval (60) otherwise; it reads but never
writes the state (it is a plain function of it, so repeated calls agree),
and with no tracked incidents it returns the calm interval. -/
theorem get_interval_characterization (iv : Option Nat) (st : MState) :
    (∀ i, iv = some i → get_interval iv st = i) ∧
    (iv = none →
      ((get_interval iv st = ACTIVE_INTERVAL ↔
          ∃ p ∈ st.known_incidents, p.2.status ≠ "resolved" ∧ p.2.status ≠ "postmortem") ∧
       (get_interval iv st = CALM_INTERVAL ↔
          ¬ ∃ p ∈ st.known_incidents, p.2.status ≠ "resolved" ∧ p.2.status ≠ "postmortem"))) ∧
    (iv = none → st.known_incidents = [] → get_interval iv st = CALM_INTERVAL) := by
  have hiff : (st.known_incidents.any
        (fun p => decide (p.2.status ≠ "resolved" ∧ p.2.status ≠ "postmortem")) = true)
      ↔ ∃ p ∈ st.known_incidents, p.2.status ≠ "resolved" ∧ p.2.status ≠ "postmortem" := by
    rw [List.any_eq_true]
    constructor
    · rintro ⟨p, hp, hdec⟩
      exact ⟨p, hp, of_decide_eq_true hdec⟩
    · rintro ⟨p, hp, hprop⟩
      exact ⟨p, hp, decide_eq_true hprop⟩
  refine ⟨?_, ?_, ?_⟩
  · intro i hi
    subst hi
    rfl
  · intro hn
    subst hn
    simp only [get_interval]
    by_cases hA : st.known_incidents.any
        (fun p => decide (p.2.status ≠ "resolved" ∧ p.2.status ≠ "postmortem")) = true
    · rw [if_pos hA]
      refine ⟨⟨fun _ => hiff.mp hA, fun _ => rfl⟩,
        ⟨fun hc => absurd hc (by decide), fun hno => absurd (hiff.mp hA) hno⟩⟩
    · rw [if_neg hA]
      refine ⟨⟨fun hc => absurd hc (by decide), fun hex => absurd (hiff.mpr hex) hA⟩,
        ⟨fun _ hex => hA (hiff.mpr hex), fun _ => rfl⟩⟩
  · intro hn hempty
    subst hn
    simp only [get_interval, hempty]
    rfl

/-- Claim C7, witness: a fixed override of 7 is returned as-is; the empty
state yields the calm interval; a state tracking one investigating
incident yields the active interval. -/
theorem get_interval_characterization_witness :
    get_interval (some 7) initMState = 7
    ∧ get_interval none initMState = CALM_INTERVAL
    ∧ get_interval none
        (MState.mk [("i1", IncidentRecord.mk "" "investigating" [])] [] [] false)
      = ACTIVE_INTERVAL :=
  ⟨(get_interval_characterization (some 7) initMState).1 7 rfl,
   (get_interval_characterization none initMState).2.2 rfl rfl,
   ((get_interval_characterization none
      (MState.mk [("i1", IncidentRecord.mk "" "investigating" [])] [] [] false)).2.1
        rfl).1.mpr
     ⟨("i1", IncidentRecord.mk "" "investigating" []), by decide, by decide, by decide⟩⟩

/-- Claim C8: a known incident none of whose delivered update ids is new
produces no event and leaves the whole state — in particular that
incident's record — unchanged. -/
theorem no_new_update_ids_no_event_no_mutation (st : MState) (inc : Inc) (sup : Bool)
    (r : IncidentRecord)
    (h : lookupMap st.known_incidents inc.id = some r)
    (hseen : ∀ u ∈ inc.incident_updates, u.id ∈ r.seen_update_ids) :
    process_incidents st [Inc.toR inc] sup = Except.ok ([], st) := by
  have hnu : newUpds r.seen_update_ids inc.incident_updates = [] := by
    rw [newUpds, List.filter_eq_nil_iff]
    intro u hu
    simpa using hseen u hu
  have h1 := processInc_toR_known st.known_incidents inc sup r h
    (by rw [hnu]; intro u hu; cases hu)
  rw [if_pos hnu, hnu] at h1
  have h2 : processInc st.known_incidents (Inc.toR inc) sup =
      Except.ok ([], st.known_incidents) := by
    simpa [sortDescBy] using h1
  exact process_incidents_single st _ sup _ _ h2

/-- Claim C8, witness: a known incident re-delivering only the already
seen update `u1` leaves state and output unchanged. -/
theorem no_new_update_ids_no_event_no_mutation_witness :
    process_incidents
      (MState.mk [("i1", IncidentRecord.mk "T1" "resolved" ["u1"])] [] [] false)
      [Inc.toR (Inc.mk "i1" "Outage" "minor" "resolved" "T1"
        [Upd.mk "u1" "resolved" "done" "2024-01-01T00:00:00Z"])] false =
      Except.ok ([], MState.mk [("i1", IncidentRecord.mk "T1" "resolved" ["u1"])] [] [] false) :=
  no_new_update_ids_no_event_no_mutation
    (MState.mk [("i1", IncidentRecord.mk "T1" "resolved" ["u1"])] [] [] false)
    (Inc.mk "i1" "Outage" "minor" "resolved" "T1"
      [Upd.mk "u1" "resolved" "done" "2024-01-01T00:00:00Z"])
    false (IncidentRecord.mk "T1" "resolved" ["u1"]) (by decide) (by decide)

/-- Claim C10: within one payload, a duplicate component id is diffed
against the status just stored by its first occurrence: on a fresh id,
two occurrences with differing statuses emit exactly one change event, for
the second occurrence, carrying the first occurrence's status as the old
status and the second occurrence's name. -/
theorem duplicate_component_id_single_payload (st : MState)
    (cid n1 n2 s1 s2 : String)
    (hfresh : lookupMap st.component_statuses cid = none) (hne : s1 ≠ s2) :
    ∃ st', process_summary st ([Comp.mk cid n1 s1, Comp.mk cid n2 s2].map Comp.toR) =
      Except.ok ([Event.componentStatusChanged cid n2 s1 s2], st') := by
  have hs : specComponents st.component_statuses [Comp.mk cid n1 s1, Comp.mk cid n2 s2]
      = [Event.componentStatusChanged cid n2 s1 s2] := by
    simp only [specComponents, hfresh, lookup_updMap_self, if_pos hne,
      List.nil_append, List.append_nil]
  exact ⟨_, by rw [process_summary_toR, hs]⟩

/-- Claim C10, witness: a never-seen component id `x` appearing twice in
one summary, first operational then in major outage, emits the transition
event. -/
theorem duplicate_component_id_single_payload_witness :
    ∃ st', process_summary initMState
        ([Comp.mk "x" "API" "operational", Comp.mk "x" "API" "major_outage"].map Comp.toR) =
      Except.ok ([Event.componentStatusChanged "x" "API" "operational" "major_outage"], st') :=
  duplicate_component_id_single_payload initMState "x" "API" "API"
    "operational" "major_outage" (by decide) (by decide)

theorem serverEmit_toR (nm : String) (l : List Upd)
    (h : ∀ u ∈ l, u.created_at ≠ "") :
    serverEmit (some nm) (l.map (fun u => (Upd.toR u, u.id))) =
      Except.ok (l.map (fun u => SEvent.update nm u.status u.body u.created_at)) := by
  induction l with
  | nil => rfl
  | cons u us ih =>
      have hu : u.created_at ≠ "" := h u (List.mem_cons_self u us)
      have h' := ih (fun x hx => h x (List.mem_cons_of_mem u hx))
      simp only [List.map, Upd.toR] at h' ⊢
      simp only [serverEmit, fmt_time, if_neg hu, getKey_some, except_bind_ok]
      rw [h']
      rfl

theorem serverInc_toR_unknown (ks : List (String × SRecord)) (inc : Inc) (fr : Bool)
    (h : lookupMap ks inc.id = none) :
    serverInc ks fr (Inc.toR inc) =
      Except.ok
        ((if fr then [] else [SEvent.newIncident inc.name inc.impact inc.status]),
         updMap ks inc.id (SRecord.mk inc.status (inc.incident_updates.map Upd.id))) := by
  cases fr with
  | true =>
      simp only [serverInc, Inc.toR, getKey_some, except_bind_ok, updateIdsOf_toR,
        h, Option.getD_some, if_true]
  | false =>
      simp only [serverInc, Inc.toR, getKey_some, except_bind_ok, updateIdsOf_toR,
        h, Option.getD_some]
      simp

theorem serverInc_toR_known (ks : List (String × SRecord)) (inc : Inc) (fr : Bool)
    (s : SRecord) (h : lookupMap ks inc.id = some s)
    (hca : ∀ u ∈ newUpds s.seen inc.incident_updates, u.created_at ≠ "") :
    serverInc ks fr (Inc.toR inc) =
      Except.ok
        ((sortDescBy (fun u => u.created_at) (newUpds s.seen inc.incident_updates)).map
            (fun u => SEvent.update inc.name u.status u.body u.created_at),
         if newUpds s.seen inc.incident_updates = [] then ks
         else updMap ks inc.id (SRecord.mk inc.status (inc.incident_updates.map Upd.id))) := by
  simp only [serverInc, Inc.toR, getKey_some, except_bind_ok, updateIdsOf_toR, h]
  have hfilter :
      List.filter (fun i => decide (¬ i ∈ s.seen))
          (List.map Upd.id inc.incident_updates)
        = List.map Upd.id (newUpds s.seen inc.incident_updates) :=
    List.filter_map Upd.id inc.incident_updates
  rw [hfilter]
  by_cases hnu : newUpds s.seen inc.incident_updates = []
  · rw [hnu]
    simp [sortDescBy, hnu]
  · have hne : List.map Upd.id (newUpds s.seen inc.incident_updates) ≠ [] := by
      simpa using hnu
    rw [if_neg hne, if_neg hnu]
    have hzip :
        (inc.incident_updates.map Upd.toR).zip (inc.incident_updates.map Upd.id)
          = inc.incident_updates.map (fun u => (Upd.toR u, u.id)) :=
      List.zip_map' Upd.toR Upd.id inc.incident_updates
    rw [hzip]
    have hnews :
        List.filter (fun p => decide (p.2 ∈ List.map Upd.id (newUpds s.seen inc.incident_updates)))
            (inc.incident_updates.map (fun u => (Upd.toR u, u.id)))
          = (newUpds s.seen inc.incident_updates).map (fun u => (Upd.toR u, u.id)) := by
      rw [List.filter_map]
      have hpt : List.filter
            ((fun p : RUpd × String =>
                decide (p.2 ∈ List.map Upd.id (newUpds s.seen inc.incident_updates)))
              ∘ (fun u => (Upd.toR u, u.id))) inc.incident_updates
          = newUpds s.seen inc.incident_updates := by
        refine List.filter_congr ?_
        intro u hu
        simp only [Function.comp_apply, decide_eq_decide]
        constructor
        · intro hmem
          rcases List.mem_map.mp hmem with ⟨v, hv, hvid⟩
          have hvnew := List.mem_filter.mp hv
          have : v.id ∉ s.seen := by
            simpa using hvnew.2
          rw [← hvid]
          exact this
        · intro hnot
          refine List.mem_map.mpr ⟨u, ?_, rfl⟩
          refine List.mem_filter.mpr ⟨hu, ?_⟩
          simpa using hnot
      rw [hpt]
    rw [hnews]
    have hsort :
        sortDescBy (fun p => p.1.created_at.getD "")
            ((newUpds s.seen inc.incident_updates).map (fun u => (Upd.toR u, u.id)))
          = (sortDescBy (fun u => u.created_at) (newUpds s.seen inc.incident_updates)).map
              (fun u => (Upd.toR u, u.id)) :=
      sortDescBy_map _ _ _
    rw [hsort]
    have hemit := serverEmit_toR inc.name
      (sortDescBy (fun u => u.created_at) (newUpds s.seen inc.incident_updates))
      (fun u hu => hca u ((mem_sortDescBy _ _ u).mp hu))
    rw [hemit]
    rfl

theorem server_components_toR_first (statuses : List (String × String)) (cs : List Comp) :
    server_components statuses true (cs.map Comp.toR) =
      Except.ok ([], storeStatuses statuses cs) := by
  induction cs generalizing statuses with
  | nil => rfl
  | cons c cs ih =>
      simp only [List.map, server_components, Comp.toR, getKey_some, except_bind_ok,
        if_true, storeStatuses]
      rw [ih]
      rfl

theorem server_components_toR (statuses : List (String × String)) (cs : List Comp) :
    server_components statuses false (cs.map Comp.toR) =
      Except.ok (srvSpecComponents statuses cs, storeStatuses statuses cs) := by
  induction cs generalizing statuses with
  | nil => rfl
  | cons c cs ih =>
      simp only [List.map, server_components, Comp.toR, getKey_some, except_bind_ok,
        srvSpecComponents, storeStatuses]
      rw [ih, if_neg Bool.false_ne_true]
      cases hl : lookupMap statuses c.id with
      | none =>
          simp only [hl]
          rfl
      | some o =>
          simp only [hl]
          by_cases ho : o ≠ ""
          · rw [if_pos ho, if_pos ho]
            by_cases hs : o ≠ c.status
            · rw [if_pos hs, if_pos hs]
              rfl
            · rw [if_neg hs, if_neg hs]
              rfl
          · rw [if_neg ho, if_neg ho]
            rfl

theorem specComponents_fresh (statuses : List (String × String)) (cs : List Comp)
    (hdup : (cs.map Comp.id).Nodup)
    (hfresh : ∀ c ∈ cs, lookupMap statuses c.id = none) :
    specComponents statuses cs = [] := by
  induction cs generalizing statuses with
  | nil => rfl
  | cons c cs ih =>
      have hfc := hfresh c (List.mem_cons_self c cs)
      simp only [specComponents, hfc, List.nil_append]
      refine ih _ (List.Nodup.of_cons hdup) ?_
      intro c' hc'
      have hne : c'.id ≠ c.id := by
        intro hEq
        have := (List.nodup_cons.mp hdup).1
        exact this (hEq ▸ List.mem_map_of_mem Comp.id hc')
      rw [lookup_updMap_ne statuses c.status hne]
      exact hfresh c' (List.mem_cons_of_mem c hc')

theorem notif_components (statuses : List (String × String)) (cs : List Comp)
    (hinv : ∀ kv ∈ statuses, kv.2 ≠ "") (hcs : ∀ c ∈ cs, c.status ≠ "") :
    (specComponents statuses cs).map cliNotif
      = (srvSpecComponents statuses cs).map srvNotif := by
  induction cs generalizing statuses with
  | nil => rfl
  | cons c cs ih =>
      have hinv' : ∀ kv ∈ updMap statuses c.id c.status, kv.2 ≠ "" := by
        intro kv hkv
        rcases mem_updMap hkv with rfl | hkv'
        · exact hcs c (List.mem_cons_self c cs)
        · exact hinv kv hkv'
      have htail := ih (updMap statuses c.id c.status) hinv'
        (fun x hx => hcs x (List.mem_cons_of_mem c hx))
      cases hl : lookupMap statuses c.id with
      | none =>
          simp only [specComponents, srvSpecComponents, hl, List.nil_append]
          exact htail
      | some o =>
          have ho : o ≠ "" := hinv (c.id, o) (mem_of_lookup hl)
          by_cases hs : o ≠ c.status
          · simp only [specComponents, srvSpecComponents, hl, if_pos ho, if_pos hs,
              List.map_append, htail]
            rfl
          · simp only [specComponents, srvSpecComponents, hl, if_pos ho, if_neg hs,
              List.nil_append]
            exact htail

theorem storeStatuses_inv (statuses : List (String × String)) (cs : List Comp)
    (hinv : ∀ kv ∈ statuses, kv.2 ≠ "") (hcs : ∀ c ∈ cs, c.status ≠ "") :
    ∀ kv ∈ storeStatuses statuses cs, kv.2 ≠ "" := by
  induction cs generalizing statuses with
  | nil => exact hinv
  | cons c cs ih =>
      simp only [storeStatuses]
      apply ih
      · intro kv hkv
        rcases mem_updMap hkv with rfl | hkv'
        · exact hcs c (List.mem_cons_self c cs)
        · exact hinv kv hkv'
      · exact fun x hx => hcs x (List.mem_cons_of_mem c hx)

theorem lookup_agrees {km : List (String × IncidentRecord)} {ks : List (String × SRecord)}
    (hR : List.Forall₂ recAgrees km ks) (k : String) :
    (lookupMap km k = none ∧ lookupMap ks k = none) ∨
      ∃ r s, lookupMap km k = some r ∧ lookupMap ks k = some s ∧
        r.status = s.status ∧ r.seen_update_ids = s.seen := by
  induction hR with
  | nil => exact Or.inl ⟨rfl, rfl⟩
  | cons hab hrest ih =>
      rename_i a b l1 l2
      obtain ⟨ka, va⟩ := a
      obtain ⟨kb, vb⟩ := b
      obtain ⟨hk, hst, hseen⟩ := hab
      simp only at hk
      subst hk
      by_cases hkey : ka = k
      · exact Or.inr ⟨va, vb, by simp [lookupMap, hkey], by simp [lookupMap, hkey],
          hst, hseen⟩
      · simp only [lookupMap, if_neg hkey]
        exact ih

theorem updMap_agrees {km : List (String × IncidentRecord)} {ks : List (String × SRecord)}
    (hR : List.Forall₂ recAgrees km ks) (k : String)
    (r : IncidentRecord) (s : SRecord)
    (hst : r.status = s.status) (hseen : r.seen_update_ids = s.seen) :
    List.Forall₂ recAgrees (updMap km k r) (updMap ks k s) := by
  induction hR with
  | nil => exact List.Forall₂.cons ⟨rfl, hst, hseen⟩ List.Forall₂.nil
  | cons hab hrest ih =>
      rename_i a b l1 l2
      obtain ⟨ka, va⟩ := a
      obtain ⟨kb, vb⟩ := b
      obtain ⟨hk, hst', hseen'⟩ := hab
      simp only at hk
      subst hk
      by_cases hkey : ka = k
      · simp only [updMap, if_pos hkey]
        exact List.Forall₂.cons ⟨rfl, hst, hseen⟩ hrest
      · simp only [updMap, if_neg hkey]
        exact List.Forall₂.cons ⟨rfl, hst', hseen'⟩ ih

theorem inc_step_agrees (km : List (String × IncidentRecord))
    (ks : List (String × SRecord)) (hR : List.Forall₂ recAgrees km ks)
    (inc : Inc) (fr : Bool)
    (hca : ∀ u ∈ inc.incident_updates, u.created_at ≠ "") :
    ∃ resC resS, processInc km (Inc.toR inc) fr = Except.ok resC
      ∧ serverInc ks fr (Inc.toR inc) = Except.ok resS
      ∧ resC.1.map cliNotif = resS.1.map srvNotif
      ∧ List.Forall₂ recAgrees resC.2 resS.2 := by
  rcases lookup_agrees hR inc.id with ⟨hn1, hn2⟩ | ⟨r, s, hs1, hs2, hst, hseen⟩
  · refine ⟨_, _, processInc_toR_unknown km inc fr hn1,
      serverInc_toR_unknown ks inc fr hn2, ?_, ?_⟩
    · cases fr <;> rfl
    · exact updMap_agrees hR inc.id _ _ rfl rfl
  · have hca' : ∀ u ∈ newUpds r.seen_update_ids inc.incident_updates, u.created_at ≠ "" :=
      fun u hu => hca u (List.mem_filter.mp hu).1
    have hseenEq : newUpds s.seen inc.incident_updates
        = newUpds r.seen_update_ids inc.incident_updates := by rw [hseen]
    have h1 := processInc_toR_known km inc fr r hs1 hca'
    have h2 := serverInc_toR_known ks inc fr s hs2 (fun u hu => hca' u (hseenEq ▸ hu))
    rw [hseenEq] at h2
    refine ⟨_, _, h1, h2, ?_, ?_⟩
    · simp only [List.map_map]
      rfl
    · by_cases hnu : newUpds r.seen_update_ids inc.incident_updates = []
      · simp only [if_pos hnu]
        exact hR
      · simp only [if_neg hnu]
        exact updMap_agrees hR inc.id _ _ rfl rfl

theorem incList_agrees (km : List (String × IncidentRecord))
    (ks : List (String × SRecord)) (hR : List.Forall₂ recAgrees km ks)
    (incs : List Inc) (fr : Bool)
    (hca : ∀ i ∈ incs, ∀ u ∈ i.incident_updates, u.created_at ≠ "") :
    ∃ resC resS, processIncList km (incs.map Inc.toR) fr = Except.ok resC
      ∧ serverIncList ks fr (incs.map Inc.toR) = Except.ok resS
      ∧ resC.1.map cliNotif = resS.1.map srvNotif
      ∧ List.Forall₂ recAgrees resC.2 resS.2 := by
  induction incs generalizing km ks with
  | nil => exact ⟨([], km), ([], ks), rfl, rfl, rfl, hR⟩
  | cons i is ih =>
      obtain ⟨resC, resS, h1, h2, hn, hR1⟩ :=
        inc_step_agrees km ks hR i fr (hca i (List.mem_cons_self i is))
      obtain ⟨resC2, resS2, h3, h4, hn2, hR2⟩ :=
        ih resC.2 resS.2 hR1 (fun x hx => hca x (List.mem_cons_of_mem i hx))
      refine ⟨(resC.1 ++ resC2.1, resC2.2), (resS.1 ++ resS2.1, resS2.2), ?_, ?_, ?_, hR2⟩
      · simp only [List.map, processIncList]
        rw [h1, except_bind_ok, h3, except_bind_ok]
      · simp only [List.map, serverIncList]
        rw [h2, except_bind_ok, h4, except_bind_ok]
      · simp only [List.map_append, hn, hn2]

theorem summary_agrees (m : MState) (s : SState)
    (hstat : m.component_statuses = s.component_statuses)
    (hfr : m.first_run = s.first_run)
    (hinv : ∀ kv ∈ m.component_statuses, kv.2 ≠ "")
    (hemp : m.first_run = true → m.component_statuses = [])
    (cs : List Comp) (hcs : ∀ c ∈ cs, c.status ≠ "")
    (hdup : m.first_run = true → (cs.map Comp.id).Nodup) :
    ∃ ss, server_components s.component_statuses s.first_run (cs.map Comp.toR)
        = Except.ok (ss, storeStatuses s.component_statuses cs)
      ∧ (specComponents m.component_statuses cs).map cliNotif = ss.map srvNotif := by
  cases hb : m.first_run with
  | true =>
      have hsf : s.first_run = true := by rw [← hfr, hb]
      refine ⟨[], ?_, ?_⟩
      · rw [hsf]
        exact server_components_toR_first s.component_statuses cs
      · rw [hemp hb, specComponents_fresh [] cs (hdup hb) (fun c _ => rfl)]
        rfl
  | false =>
      have hsf : s.first_run = false := by rw [← hfr, hb]
      refine ⟨srvSpecComponents s.component_statuses cs, ?_, ?_⟩
      · rw [hsf]
        exact server_components_toR s.component_statuses cs
      · rw [hstat] at hinv ⊢
        exact notif_components s.component_statuses cs hinv hcs

theorem poll_step_agrees (m : MState) (s : SState)
    (hA : statesAgree m s)
    (hinv : ∀ kv ∈ m.component_statuses, kv.2 ≠ "")
    (hemp : m.first_run = true → m.component_statuses = [])
    (summary : Option (List Comp)) (incidents : Option (List Inc))
    (hS : ∀ cs, summary = some cs → ∀ c ∈ cs, c.status ≠ "")
    (hdup : m.first_run = true → ∀ cs, summary = some cs → (cs.map Comp.id).Nodup)
    (hca : ∀ incs, incidents = some incs →
        ∀ i ∈ incs, ∀ u ∈ i.incident_updates, u.created_at ≠ "") :
    ∃ resC resS,
      poll_step m (summary.map (List.map Comp.toR)) (incidents.map (List.map Inc.toR))
          = Except.ok resC
      ∧ server_step s (summary.map (List.map Comp.toR)) (incidents.map (List.map Inc.toR))
          = Except.ok resS
      ∧ resC.1.map cliNotif = resS.1.map srvNotif
      ∧ statesAgree resC.2 resS.2
      ∧ (∀ kv ∈ resC.2.component_statuses, kv.2 ≠ "")
      ∧ resC.2.first_run = false := by
  obtain ⟨hstat, hR, hfr⟩ := hA
  cases summary with
  | none =>
      cases incidents with
      | none =>
          refine ⟨([], MState.mk m.known_incidents m.component_statuses m.component_names false),
            ([], SState.mk s.known_incidents s.component_statuses false),
            ?_, ?_, rfl, ⟨hstat, hR, rfl⟩, hinv, rfl⟩
          · simp only [Option.map, poll_step, except_bind_ok, List.nil_append, List.append_nil]
          · simp only [Option.map, server_step, except_bind_ok, List.nil_append, List.append_nil]
      | some incs =>
          obtain ⟨resC, resS, hCinc, hSinc, hninc, hRinc⟩ :=
            incList_agrees m.known_incidents s.known_incidents hR incs m.first_run
              (hca incs rfl)
          refine ⟨(resC.1, MState.mk resC.2 m.component_statuses m.component_names false),
            (resS.1, SState.mk resS.2 s.component_statuses false),
            ?_, ?_, hninc, ⟨hstat, hRinc, rfl⟩, hinv, rfl⟩
          · simp only [Option.map, poll_step, process_incidents, hCinc, except_bind_ok, List.nil_append, List.append_nil]
          · simp only [Option.map, server_step, ← hfr, hSinc, except_bind_ok,
              List.nil_append, List.append_nil]
  | some cs =>
      obtain ⟨ssum, hSsum, hnsum⟩ := summary_agrees m s hstat hfr hinv hemp cs
        (hS cs rfl) (fun hb => hdup hb cs rfl)
      have hCsum := process_summary_toR m cs
      have hinv' : ∀ kv ∈ storeStatuses m.component_statuses cs, kv.2 ≠ "" :=
        storeStatuses_inv m.component_statuses cs hinv (hS cs rfl)
      cases incidents with
      | none =>
          refine ⟨(specComponents m.component_statuses cs,
              MState.mk m.known_incidents (storeStatuses m.component_statuses cs)
                (storeNames m.component_names cs) false),
            (ssum, SState.mk s.known_incidents (storeStatuses s.component_statuses cs) false),
            ?_, ?_, by simpa using hnsum,
            ⟨by rw [hstat], hR, rfl⟩, hinv', rfl⟩
          · simp only [Option.map, poll_step, hCsum, except_bind_ok, List.nil_append, List.append_nil]
          · simp only [Option.map, server_step, hSsum, except_bind_ok, List.nil_append, List.append_nil]
      | some incs =>
          obtain ⟨resC, resS, hCinc, hSinc, hninc, hRinc⟩ :=
            incList_agrees m.known_incidents s.known_incidents hR incs m.first_run
              (hca incs rfl)
          refine ⟨(specComponents m.component_statuses cs ++ resC.1,
              MState.mk resC.2 (storeStatuses m.component_statuses cs)
                (storeNames m.component_names cs) false),
            (ssum ++ resS.1, SState.mk resS.2 (storeStatuses s.component_statuses cs) false),
            ?_, ?_, by simp only [List.map_append, hnsum, hninc],
            ⟨by rw [hstat], hRinc, rfl⟩, hinv', rfl⟩
          · simp only [Option.map, poll_step, process_incidents, hCsum, hCinc,
              except_bind_ok, List.nil_append, List.append_nil]
          · rw [← hfr] at hSsum
            simp only [Option.map, server_step, ← hfr, hSsum, hSinc, except_bind_ok,
              List.nil_append, List.append_nil]

theorem runs_agree (polls : List (Option (List Comp) × Option (List Inc)))
    (m : MState) (s : SState)
    (hA : statesAgree m s)
    (hinv : ∀ kv ∈ m.component_statuses, kv.2 ≠ "")
    (hemp : m.first_run = true → m.component_statuses = [])
    (hS : ∀ p ∈ polls, ∀ cs, p.1 = some cs → ∀ c ∈ cs, c.status ≠ "")
    (hca : ∀ p ∈ polls, ∀ incs, p.2 = some incs →
        ∀ i ∈ incs, ∀ u ∈ i.incident_updates, u.created_at ≠ "")
    (hdup : m.first_run = true → ∀ p cs, polls.head? = some p → p.1 = some cs →
        (cs.map Comp.id).Nodup) :
    ∃ resC resS, cli_run m (polls.map liftP) = Except.ok resC
      ∧ server_run s (polls.map liftP) = Except.ok resS
      ∧ resC.1.map cliNotif = resS.1.map srvNotif
      ∧ statesAgree resC.2 resS.2 := by
  induction polls generalizing m s with
  | nil => exact ⟨([], m), ([], s), rfl, rfl, rfl, hA⟩
  | cons p ps ih =>
      obtain ⟨resC, resS, h1, h2, hn, hA1, hinv1, hfr1⟩ :=
        poll_step_agrees m s hA hinv hemp p.1 p.2
          (fun cs hcs => hS p (List.mem_cons_self p ps) cs hcs)
          (fun hb cs hcs => hdup hb p cs rfl hcs)
          (fun incs hincs => hca p (List.mem_cons_self p ps) incs hincs)
      obtain ⟨resC2, resS2, h3, h4, hn2, hA2⟩ :=
        ih resC.2 resS.2 hA1 hinv1
          (fun hb => absurd (hfr1.symm.trans hb) Bool.false_ne_true)
          (fun x hx => hS x (List.mem_cons_of_mem p hx))
          (fun x hx => hca x (List.mem_cons_of_mem p hx))
          (fun hb => absurd (hfr1.symm.trans hb) Bool.false_ne_true)
      refine ⟨(resC.1 ++ resC2.1, resC2.2), (resS.1 ++ resS2.1, resS2.2), ?_, ?_, ?_, hA2⟩
      · simp only [List.map, cli_run, liftP]
        rw [h1, except_bind_ok, h3, except_bind_ok]
      · simp only [List.map, server_run, liftP]
        rw [h2, except_bind_ok, h4, except_bind_ok]
      · simp only [List.map_append, hn, hn2]

/-- Claim C9, counterexample: the claim says the CLI engine and the server
poll loop emit the same notifications on the same snapshots. On a very
first poll whose summary carries the same component id twice with two
different statuses, the CLI variant (whose diffing also runs on the first
poll) emits one component-change notification while the server variant
(which only stores statuses on the first poll) emits none. -/
theorem first_poll_duplicate_divergence :
    (cli_run initMState
        [(some ([Comp.mk "x" "API" "operational",
                 Comp.mk "x" "API" "major_outage"].map Comp.toR), none)]).map
        (fun r => r.1.map cliNotif)
      = Except.ok [Notif.componentChange "API" "operational" "major_outage"]
    ∧ (server_run initSState
        [(some ([Comp.mk "x" "API" "operational",
                 Comp.mk "x" "API" "major_outage"].map Comp.toR), none)]).map
        (fun r => r.1.map srvNotif)
      = Except.ok [] :=
  ⟨rfl, rfl⟩

/-- Claim C9, amended: starting from their initial states and fed the same
sequence of well-formed snapshots, the CLI engine and the server poll loop
emit the same change notifications in the same order and keep
corresponding tracked state (equal component statuses, pointwise-agreeing
incident records), provided that the first poll's summary has no duplicate
component ids (the CLI diffs within the first poll, the server does not),
that component statuses are nonempty strings (the server treats a falsy
stored status as no prior record, the CLI any present one), and that
updates carry nonempty `created_at` values (the two variants fail
differently on that default). -/
theorem variants_agree_amended (polls : List (Option (List Comp) × Option (List Inc)))
    (hS : ∀ p ∈ polls, ∀ cs, p.1 = some cs → ∀ c ∈ cs, c.status ≠ "")
    (hca : ∀ p ∈ polls, ∀ incs, p.2 = some incs →
        ∀ i ∈ incs, ∀ u ∈ i.incident_updates, u.created_at ≠ "")
    (hdup : ∀ p cs, polls.head? = some p → p.1 = some cs → (cs.map Comp.id).Nodup) :
    ∃ resC resS, cli_run initMState (polls.map liftP) = Except.ok resC
      ∧ server_run initSState (polls.map liftP) = Except.ok resS
      ∧ resC.1.map cliNotif = resS.1.map srvNotif
      ∧ statesAgree resC.2 resS.2 :=
  runs_agree polls initMState initSState ⟨rfl, List.Forall₂.nil, rfl⟩
    (fun kv hkv => absurd hkv (List.not_mem_nil kv))
    (fun _ => rfl) hS hca (fun _ => hdup)

/-- Claim C9, witness: the amended equivalence applied to a concrete
two-poll sequence. -/
theorem variants_agree_amended_witness :
    ∃ resC resS, cli_run initMState (c9Polls.map liftP) = Except.ok resC
      ∧ server_run initSState (c9Polls.map liftP) = Except.ok resS
      ∧ resC.1.map cliNotif = resS.1.map srvNotif
      ∧ statesAgree resC.2 resS.2 :=
  variants_agree_amended c9Polls
    (by
      intro p hp cs hcs c hc
      fin_cases hp <;>
        · cases hcs
          revert c hc
          decide)
    (by
      intro p hp incs hincs
      fin_cases hp <;>
        · cases hincs
          intro i hi
          fin_cases hi
          intro u hu
          fin_cases hu <;> decide)
    (by
      intro p cs hp hcs
      cases hp
      cases hcs
      decide)

end StatusPage
